import Mathlib

/-!
Shallow embedding of the core of the `bg-remove` repository, and proofs
checking the natural-language specification against it.

Embedded source files:
  * `src/lib/database.ts`   — the Dexie-backed image store (`imageStorage`),
  * `src/components/EditModal.tsx` — preset catalog, crop planner
    (`calculateCropArea`), pixel effects and the size-budgeted JPEG
    encode loop of `applyChanges`,
  * the unnamed application root (`App.tsx`) — `resizeImageForProcessing`
    and the persistence performed by `onDrop`.

Modelling conventions:
  * JavaScript `Date` values are integer millisecond timestamps (`ℤ`).
  * JavaScript numbers are embedded as exact rationals (`ℚ`).  Where a
    claim genuinely depends on IEEE-754 binary64 rounding (the
    `quality -= 0.1` loop of the JPEG encoder), the exact binary64
    values of the JavaScript computation are used; elsewhere real
    arithmetic is exact-rational, which is the idealisation the spec's
    "within floating-point tolerance" allows.
  * Browser primitives (image decode, canvas encode) are abstract
    function parameters; their results are `Option`-valued where the
    browser API can fail.
-/

/-- Output format tag, `'png' | 'jpeg'` in the source. -/
inductive ImgFormat where
  | png : ImgFormat
  | jpeg : ImgFormat
deriving DecidableEq

/-- A JavaScript `File`/`Blob`: name, MIME type, byte size, decoded pixel
dimensions and `lastModified` timestamp.  Only the fields the embedded
code inspects are kept. -/
structure JsFile where
  name : String
  ftype : String
  size : ℕ
  width : ℕ
  height : ℕ
  lastModified : ℤ
deriving DecidableEq

/-- `StoredImage` of `src/lib/database.ts`: one record of the `images`
table.  `id` is the auto-incremented primary key. -/
structure StoredImage where
  id : ℕ
  originalFile : JsFile
  processedFile : Option JsFile
  fileName : String
  lastPreset : Option String
  lastFormat : Option ImgFormat
  createdAt : ℤ
  updatedAt : ℤ
deriving DecidableEq

/-- The Dexie `images` table: the records plus the auto-increment
counter for the next primary key. -/
structure ImageDB where
  images : List StoredImage
  nextId : ℕ
deriving DecidableEq

/-- Well-formedness that IndexedDB guarantees for an auto-increment
table: primary keys are pairwise distinct and below the counter. -/
def ImageDB.WF (db : ImageDB) : Prop :=
  db.images.Pairwise (fun a b => a.id ≠ b.id) ∧ ∀ r ∈ db.images, r.id < db.nextId

instance (db : ImageDB) : Decidable db.WF := by
  unfold ImageDB.WF
  infer_instance

/-- `imageStorage.saveImage` of `src/lib/database.ts`.

The source looks up `db.images.where('fileName').equals(originalFile.name)`
and takes the first match (under the unique-name invariant the choice is
immaterial; we model it as `List.find?`).  It then builds `imageData`
with all seven fields listed explicitly — `processedFile`, `lastPreset`
and `lastFormat` are set to the (possibly `undefined`) call arguments —
and either `update`s the existing record or `add`s a new one.

Dexie's `Table.update(key, changes)` sets every key path present in
`changes`, and a key path whose value is `undefined` is *deleted* from
the stored object.  Since `imageData` lists every field of the record
explicitly, the update replaces the whole record except its `id`:
optional fields that were not supplied in the call come out absent. -/
def saveImage (db : ImageDB) (now : ℤ) (originalFile : JsFile)
    (processedFile : Option JsFile) (lastPreset : Option String)
    (lastFormat : Option ImgFormat) : ℕ × ImageDB :=
  match db.images.find? (fun r => r.fileName = originalFile.name) with
  | some e =>
      let imageData : StoredImage :=
        { id := e.id
          originalFile := originalFile
          processedFile := processedFile
          fileName := originalFile.name
          lastPreset := lastPreset
          lastFormat := lastFormat
          createdAt := e.createdAt
          updatedAt := now }
      (e.id,
        { db with
            images := db.images.map (fun r => if r.id = e.id then imageData else r) })
  | none =>
      let added : StoredImage :=
        { id := db.nextId
          originalFile := originalFile
          processedFile := processedFile
          fileName := originalFile.name
          lastPreset := lastPreset
          lastFormat := lastFormat
          createdAt := now
          updatedAt := now }
      (db.nextId, { images := db.images ++ [added], nextId := db.nextId + 1 })

/-- Byte size contributed by one record: original plus processed blob,
as accumulated by `imageStorage.getStorageSize`. -/
def recordSize (r : StoredImage) : ℕ :=
  r.originalFile.size + (match r.processedFile with
    | some p => p.size
    | none => 0)

/-- `imageStorage.getStorageSize`: the loop summing blob sizes. -/
def getStorageSize (db : ImageDB) : ℕ :=
  db.images.foldl (fun acc r => acc + recordSize r) 0

/-- The `sizes` array of `formatBytes`. -/
def sizeUnits : List String := ["Bytes", "KB", "MB", "GB"]

/-- Hundredths of `num / p`, rounded half-up: the value of
`parseFloat((num / p).toFixed(2)) * 100` under exact arithmetic. -/
def roundHundredths (num p : ℕ) : ℕ := (200 * num + p) / (2 * p)

/-- Render a number of hundredths the way
`parseFloat(x.toFixed(2)).toString()` does: at most two decimals,
trailing zeros (and a trailing dot) stripped. -/
def hundredthsRepr (h : ℕ) : String :=
  let ip := h / 100
  let fr := h % 100
  if fr = 0 then toString ip
  else if fr % 10 = 0 then toString ip ++ "." ++ toString (fr / 10)
  else if fr < 10 then toString ip ++ ".0" ++ toString fr
  else toString ip ++ "." ++ toString fr

/-- `formatBytes` of `src/lib/database.ts`.

`i = Math.floor(Math.log(bytes) / Math.log(1024))` is the base-1024
logarithm (`Nat.log 1024` under exact arithmetic), and the result is
`parseFloat((bytes / 1024 ** i).toFixed(2)) + ' ' + sizes[i]`.  For
`i ≥ 4` the JavaScript expression `sizes[i]` is `undefined`, and string
concatenation renders it as the text `"undefined"`. -/
def formatBytes (bytes : ℕ) : String :=
  if bytes = 0 then "0 Bytes"
  else
    let i := Nat.log 1024 bytes
    hundredthsRepr (roundHundredths bytes (1024 ^ i)) ++ " " ++
      ((sizeUnits.get? i).getD "undefined")

/-- Result of `imageStorage.getStorageInfo`. -/
structure StorageInfo where
  count : ℕ
  totalSize : ℕ
  formattedSize : String
deriving DecidableEq

/-- `imageStorage.getStorageInfo`. -/
def getStorageInfo (db : ImageDB) : StorageInfo :=
  { count := db.images.length
    totalSize := getStorageSize db
    formattedSize := formatBytes (getStorageSize db) }

/-- Milliseconds per day; `cutoffDate.setDate(cutoffDate.getDate() - d)`
moves a timestamp back `d` civil days, i.e. `d * 86400000` ms (the
embedding idealises away daylight-saving shifts). -/
def msPerDay : ℤ := 86400000

/-- `imageStorage.cleanupOldImages`: collects the records with
`updatedAt` strictly below the cutoff, bulk-deletes them by primary key
and returns how many ids it deleted. -/
def cleanupOldImages (db : ImageDB) (now : ℤ) (daysToKeep : ℕ) : ℕ × ImageDB :=
  let cutoff := now - daysToKeep * msPerDay
  let idsToDelete := (db.images.filter (fun r => r.updatedAt < cutoff)).map (fun r => r.id)
  (idsToDelete.length,
    { db with images := db.images.filter (fun r => ¬ r.id ∈ idsToDelete) })

/-- `PhotoPreset` of `src/components/EditModal.tsx`.  Dimensions are
rationals because the source does rational arithmetic on them. -/
structure PhotoPreset where
  id : String
  label : String
  width : ℚ
  height : ℚ
  minHeadWidth : ℚ
  maxHeadWidth : ℚ
  format : ImgFormat
  maxFileSize : Option ℕ
  description : String
deriving DecidableEq

/-- The static `photoPresets` catalog. -/
def photoPresets : List PhotoPreset :=
  [ { id := "none", label := "No Preset", width := 0, height := 0,
      minHeadWidth := 0, maxHeadWidth := 0, format := ImgFormat.png,
      maxFileSize := none, description := "Keep original dimensions" },
    { id := "china-visa", label := "China Visa", width := 420, height := 560,
      minHeadWidth := 191, maxHeadWidth := 251, format := ImgFormat.jpeg,
      maxFileSize := some 120,
      description := "420x560px, JPEG, 40-120KB, head 191-251px wide" },
    { id := "us-passport", label := "US Passport", width := 600, height := 600,
      minHeadWidth := 330, maxHeadWidth := 420, format := ImgFormat.jpeg,
      maxFileSize := some 240,
      description := "600x600px, JPEG, head 330-420px wide" },
    { id := "linkedin", label := "LinkedIn Profile", width := 400, height := 400,
      minHeadWidth := 200, maxHeadWidth := 320, format := ImgFormat.jpeg,
      maxFileSize := none,
      description := "400x400px, square format for social media" } ]

/-- A rectangle `{x, y, width, height}` in source-image pixel
coordinates. -/
structure Rect where
  x : ℚ
  y : ℚ
  width : ℚ
  height : ℚ
deriving DecidableEq

/-- `calculateCropArea` of `src/components/EditModal.tsx`.  The detected
face (if any) is passed in; `detectFace` itself is an external browser
capability.  The literal `0.4` of `idealFacePosition` is embedded as the
exact rational `2/5`. -/
def calculateCropArea (imgWidth imgHeight : ℚ) (preset : PhotoPreset)
    (face : Option Rect) : Option Rect :=
  if preset.id = "none" then none
  else
    let aspectRatio := preset.width / preset.height
    let imgAspectRatio := imgWidth / imgHeight
    if imgAspectRatio > aspectRatio then
      let cropHeight := imgHeight
      let cropWidth := cropHeight * aspectRatio
      let cropX :=
        match face with
        | some f =>
            let faceCenterX := f.x + f.width / 2
            max 0 (min (imgWidth - cropWidth) (faceCenterX - cropWidth / 2))
        | none => (imgWidth - cropWidth) / 2
      some { x := cropX, y := 0, width := cropWidth, height := cropHeight }
    else
      let cropWidth := imgWidth
      let cropHeight := cropWidth / aspectRatio
      let cropY :=
        match face with
        | some f =>
            let faceCenterY := f.y + f.height / 2
            let idealFacePosition := cropHeight * (2 / 5)
            max 0 (min (imgHeight - cropHeight) (faceCenterY - idealFacePosition))
        | none => (imgHeight - cropHeight) / 2
      some { x := 0, y := cropY, width := cropWidth, height := cropHeight }

/-- ECMAScript `ToUint8Clamp`, the conversion applied when a number is
stored into a `Uint8ClampedArray` entry: clamp to `[0, 255]`, round
half to even. -/
def toUint8Clamp (v : ℚ) : ℕ :=
  if v ≤ 0 then 0
  else if 255 ≤ v then 255
  else
    let f := ⌊v⌋
    let r := v - f
    (if r < 1 / 2 then f
     else if 1 / 2 < r then f + 1
     else if 2 ∣ f then f else f + 1).toNat

/-- One channel of the brightness pass:
`data[i] = Math.min(255, data[i] * (brightnessValue / 50))`, stored
through `Uint8ClampedArray`. -/
def brightnessChannel (v c : ℕ) : ℕ :=
  toUint8Clamp (min 255 ((c : ℚ) * ((v : ℚ) / 50)))

/-- The contrast factor
`(259 * (contrastValue + 255)) / (255 * (259 - contrastValue))`. -/
def contrastFactor (v : ℕ) : ℚ :=
  (259 * ((v : ℚ) + 255)) / (255 * (259 - (v : ℚ)))

/-- One channel of the contrast pass:
`data[i] = factor * (data[i] - 128) + 128`, stored through
`Uint8ClampedArray`. -/
def contrastChannel (v c : ℕ) : ℕ :=
  toUint8Clamp (contrastFactor v * ((c : ℚ) - 128) + 128)

/-- The effect loops of `applyChanges` walk the RGBA byte array with
`for (let i = 0; i < data.length; i += 4)` and write channels `i`,
`i+1`, `i+2`: exactly the positions whose index is not `3 mod 4`.  The
alpha byte at `i+3` is never written. -/
def applyEffectData (f : ℕ → ℕ) : ℕ → List ℕ → List ℕ
  | _, [] => []
  | i, c :: rest => (if i % 4 = 3 then c else f c) :: applyEffectData f (i + 1) rest

/-- The `case 'brightness'` pass of `applyChanges`. -/
def applyBrightness (v : ℕ) (data : List ℕ) : List ℕ :=
  applyEffectData (brightnessChannel v) 0 data

/-- The `case 'contrast'` pass of `applyChanges`. -/
def applyContrast (v : ℕ) (data : List ℕ) : List ℕ :=
  applyEffectData (contrastChannel v) 0 data

/-- The exact IEEE-754 binary64 values taken by the JavaScript variable
`quality` in `applyChanges`: it starts as the literal `0.9` and is
repeatedly decreased by the literal `0.1`.  Binary64 subtraction drifts,
so after eight decrements the value is `0.10000000000000014…`, still
above the literal `0.1`, and the ninth decrement lands at
`1.3877787807814457e-16`. -/
def jsQualitySeq : List ℚ :=
  [ 8106479329266893 / 9007199254740992,
    3602879701896397 / 4503599627370496,
    6305039478318695 / 9007199254740992,
    1351079888211149 / 2251799813685248,
    4503599627370497 / 9007199254740992,
    1801439850948199 / 4503599627370496,
    2702159776422299 / 9007199254740992,
    7205759403792799 / 36028797018963968,
    1801439850948201 / 18014398509481984,
    5 / 36028797018963968 ]

/-- Quality after `k` decrements (the loop never performs a tenth
decrement, so indices past the table are irrelevant). -/
def fpQuality (k : ℕ) : ℚ := jsQualitySeq.getD k 0

/-- The exact binary64 value of the JavaScript literal `0.1`. -/
def fpPointOne : ℚ := 3602879701896397 / 36028797018963968

/-- The exact binary64 value of the JavaScript literal `0.9`. -/
def fpPointNine : ℚ := 8106479329266893 / 9007199254740992

/-- The `while` loop of the JPEG export in `applyChanges`:
`while (dataUrl.length * 0.75 > targetSize && quality > 0.1 && attempts < 10)`.
`enc q` is the length of `canvas.toDataURL('image/jpeg', q)` for the
fixed composited canvas; `0.75` is the exact binary64 value `3/4`.
State: number of decrements done so far (`attempts`, which also indexes
the quality chain) and the current encoded length.  The fuel argument
is `10`, enough for the `attempts < 10` guard to be the binding bound. -/
def encodeLoopGo (enc : ℚ → ℕ) (targetSize : ℕ) :
    ℕ → ℕ → ℕ → ℕ × ℕ
  | 0, attempts, len => (attempts, len)
  | fuel + 1, attempts, len =>
      if (len : ℚ) * (3 / 4) > (targetSize : ℚ) ∧ fpQuality attempts > fpPointOne ∧
          attempts < 10 then
        encodeLoopGo enc targetSize fuel (attempts + 1) (enc (fpQuality (attempts + 1)))
      else (attempts, len)

/-- The JPEG branch of the export section of `applyChanges`, for a
preset carrying a `maxFileSize` budget (in KB): first encode at quality
`0.9`, then run the budget loop.  Returns the number of decrements
performed and the final encoded length. -/
def encodeJpegWithBudget (enc : ℚ → ℕ) (maxFileSizeKB : ℕ) : ℕ × ℕ :=
  encodeLoopGo enc (maxFileSizeKB * 1024) 10 0 (enc (fpQuality 0))

/-- JavaScript `Math.round` on a non-negative argument:
`⌊x + 1/2⌋`. -/
def jsRound (q : ℚ) : ℤ := ⌊q + 1 / 2⌋

/-- The dimension computation of `resizeImageForProcessing` in the app
root: heights above `maxHeight` are scaled down to it, the width follows
the aspect ratio `img.width / img.height` through `Math.round`. -/
def resizeDims (w h maxHeight : ℕ) : ℕ × ℕ :=
  if h > maxHeight then
    ((jsRound ((maxHeight : ℚ) * ((w : ℚ) / (h : ℚ)))).toNat, maxHeight)
  else (w, h)

/-- `resizeImageForProcessing` of the app root.  `loadOk` models whether
`img.onload` fired (versus `onerror`), `ctxOk` whether
`canvas.getContext('2d')` returned a context, and `encode` models
`canvas.toBlob(cb, file.type, 0.9)` — it receives the MIME type, the
quality argument and the canvas dimensions and yields the blob size, or
`none` when `toBlob` produces `null`.  On any failure the original file
is returned unchanged. -/
def resizeImageForProcessing (loadOk ctxOk : Bool)
    (encode : String → ℚ → ℕ × ℕ → Option ℕ) (file : JsFile)
    (maxHeight : ℕ) : JsFile :=
  if loadOk = false then file
  else if ctxOk = false then file
  else
    let dims := resizeDims file.width file.height maxHeight
    match encode file.ftype fpPointNine dims with
    | some sz =>
        { name := file.name, ftype := file.ftype, size := sz,
          width := dims.1, height := dims.2, lastModified := file.lastModified }
    | none => file

/-- The per-file persistence step of `onDrop` in the app root: the
accepted file is resized first (`maxHeight = 512`, the default) and the
*resized* file is what `imageStorage.saveImage(image.file)` persists,
with no processed blob, preset or format. -/
def onDropPersistOne (loadOk ctxOk : Bool)
    (encode : String → ℚ → ℕ × ℕ → Option ℕ) (db : ImageDB) (now : ℤ)
    (file : JsFile) : ImageDB :=
  (saveImage db now (resizeImageForProcessing loadOk ctxOk encode file 512)
    none none none).2

/-! ### Helper lemmas -/

/-- In a list with pairwise-distinct ids, members are determined by
their id. -/
theorem eq_of_mem_of_id_eq {l : List StoredImage}
    (hp : l.Pairwise (fun a b => a.id ≠ b.id)) {r s : StoredImage}
    (hr : r ∈ l) (hs : s ∈ l) (h : r.id = s.id) : r = s := by
  induction l with
  | nil => cases hr
  | cons x xs ih =>
      rcases List.pairwise_cons.mp hp with ⟨hx, hxs⟩
      rcases List.mem_cons.mp hr with rfl | hr'
      · rcases List.mem_cons.mp hs with rfl | hs'
        · rfl
        · exact absurd h (hx s hs')
      · rcases List.mem_cons.mp hs with rfl | hs'
        · exact absurd h.symm (hx r hr')
        · exact ih hxs hr' hs'

/-- The accumulator loop of `getStorageSize` computes the sum of the
per-record sizes. -/
theorem foldl_recordSize (l : List StoredImage) (n : ℕ) :
    l.foldl (fun acc r => acc + recordSize r) n = n + (l.map recordSize).sum := by
  induction l generalizing n with
  | nil => simp
  | cons x xs ih => simp [ih, Nat.add_assoc]

/-! ### C7 — retention sweep -/

/-- C7: `cleanupOldImages d` deletes exactly the records whose
`updatedAt` is strictly older than `now - d` days and no others,
returns the number of records deleted, and a second immediate run
deletes nothing. -/
theorem cleanupOldImages_removes_exactly (db : ImageDB) (hWF : db.WF)
    (now : ℤ) (d : ℕ) :
    (∀ r, r ∈ (cleanupOldImages db now d).2.images ↔
        r ∈ db.images ∧ ¬ r.updatedAt < now - d * msPerDay) ∧
    (cleanupOldImages db now d).1 =
      (db.images.filter (fun r => r.updatedAt < now - d * msPerDay)).length ∧
    db.images.length =
      (cleanupOldImages db now d).1 + (cleanupOldImages db now d).2.images.length ∧
    (cleanupOldImages (cleanupOldImages db now d).2 now d).1 = 0 := by
  obtain ⟨hids, -⟩ := hWF
  have hkey : ∀ r ∈ db.images,
      (r.id ∈ (db.images.filter
          (fun r => r.updatedAt < now - d * msPerDay)).map (fun r => r.id)
        ↔ r.updatedAt < now - d * msPerDay) := by
    intro r hr
    constructor
    · intro hmem
      rcases List.mem_map.mp hmem with ⟨s, hs, hid⟩
      rcases List.mem_filter.mp hs with ⟨hsl, hsold⟩
      have : s = r := eq_of_mem_of_id_eq hids hsl hr hid
      subst this
      exact of_decide_eq_true hsold
    · intro hold
      exact List.mem_map.mpr ⟨r, List.mem_filter.mpr ⟨hr, decide_eq_true hold⟩, rfl⟩
  have hmem : ∀ r, r ∈ (cleanupOldImages db now d).2.images ↔
      r ∈ db.images ∧ ¬ r.updatedAt < now - d * msPerDay := by
    intro r
    simp only [cleanupOldImages, List.mem_filter, decide_not]
    constructor
    · rintro ⟨hr, hnot⟩
      refine ⟨hr, fun hold => ?_⟩
      have := (hkey r hr).mpr hold
      simp [this] at hnot
    · rintro ⟨hr, hnot⟩
      refine ⟨hr, ?_⟩
      have : ¬ r.id ∈ (db.images.filter
          (fun r => r.updatedAt < now - d * msPerDay)).map (fun r => r.id) :=
        fun hin => hnot ((hkey r hr).mp hin)
      simp [this]
  refine ⟨hmem, ?_, ?_, ?_⟩
  · simp [cleanupOldImages]
  · have hsplit := List.length_eq_length_filter_add
      (l := db.images) (fun r => decide (r.updatedAt < now - d * msPerDay))
    have hcongr : (cleanupOldImages db now d).2.images =
        db.images.filter (fun r => !decide (r.updatedAt < now - d * msPerDay)) := by
      simp only [cleanupOldImages]
      refine List.filter_congr ?_
      intro r hr
      by_cases hold : r.updatedAt < now - d * msPerDay
      · have := (hkey r hr).mpr hold
        simp [this, hold]
      · have : ¬ r.id ∈ (db.images.filter
            (fun r => r.updatedAt < now - d * msPerDay)).map (fun r => r.id) :=
          fun hin => hold ((hkey r hr).mp hin)
        simp [this, hold]
    rw [hcongr]
    simpa [cleanupOldImages] using hsplit
  · have hnil : (cleanupOldImages db now d).2.images.filter
        (fun r => r.updatedAt < now - d * msPerDay) = [] := by
      refine List.filter_eq_nil_iff.mpr ?_
      intro r hr
      have := ((hmem r).mp hr).2
      simpa using this
    simp only [cleanupOldImages] at hnil ⊢
    rw [hnil]
    simp

/-- Sample records for the C7 witness. -/
def staleRecord : StoredImage :=
  { id := 0,
    originalFile := { name := "old.png", ftype := "image/png", size := 10,
                      width := 4, height := 4, lastModified := 0 },
    processedFile := none, fileName := "old.png", lastPreset := none,
    lastFormat := none, createdAt := 0, updatedAt := 0 }

/-- Second sample record for the C7 witness. -/
def freshRecord : StoredImage :=
  { id := 1,
    originalFile := { name := "new.png", ftype := "image/png", size := 20,
                      width := 4, height := 4, lastModified := 0 },
    processedFile := none, fileName := "new.png", lastPreset := none,
    lastFormat := none, createdAt := 999000000000, updatedAt := 999000000000 }

/-- Witness for C7 at a concrete store: the stale record is counted,
the fresh one kept. -/
theorem cleanupOldImages_removes_exactly_witness :
    (ImageDB.mk [staleRecord, freshRecord] 2).WF ∧
    (cleanupOldImages (ImageDB.mk [staleRecord, freshRecord] 2) 1000000000000 30).1 =
      ((ImageDB.mk [staleRecord, freshRecord] 2).images.filter
        (fun r => r.updatedAt < 1000000000000 - 30 * msPerDay)).length :=
  ⟨by decide,
    (cleanupOldImages_removes_exactly (ImageDB.mk [staleRecord, freshRecord] 2)
      (by decide) 1000000000000 30).2.1⟩

/-! ### C9 — storage summary -/

/-- The claim's reading of the human-readable size: either the empty
total rendered as `"0 Bytes"`, or the total expressed in the base-1024
unit matching its magnitude, chosen from `Bytes`/`KB`/`MB`/`GB`, with
the numeric part rounded to two decimals. -/
def expressesInBase1024Units (bytes : ℕ) (s : String) : Prop :=
  (bytes = 0 ∧ s = "0 Bytes") ∨
  ∃ i, i < 4 ∧ 1024 ^ i ≤ bytes ∧ bytes < 1024 ^ (i + 1) ∧
    s = hundredthsRepr (roundHundredths bytes (1024 ^ i)) ++ " " ++ sizeUnits.getD i ""

/-- For indices inside the unit table, the source's `sizes[i]` lookup is
the table entry. -/
theorem sizeUnits_get_lt : ∀ i < 4, (sizeUnits[i]?).getD "undefined" = sizeUnits.getD i "" := by
  decide

/-- C9 (amended): `getStorageInfo` returns the record count, the summed
byte total, and — whenever the total is below `1024 ^ 4` (1 TiB) — a
string expressing the total in the magnitude-appropriate base-1024 unit
from `Bytes`/`KB`/`MB`/`GB`, rounded to two decimals, with `"0 Bytes"`
for an empty total.  (At or above 1 TiB the source indexes past the end
of its unit array; see the counterexample.) -/
theorem getStorageInfo_summary (db : ImageDB)
    (hsmall : getStorageSize db < 1024 ^ 4) :
    (getStorageInfo db).count = db.images.length ∧
    (getStorageInfo db).totalSize = (db.images.map recordSize).sum ∧
    expressesInBase1024Units (getStorageSize db) (getStorageInfo db).formattedSize := by
  refine ⟨rfl, ?_, ?_⟩
  · simpa [getStorageInfo, getStorageSize] using foldl_recordSize db.images 0
  · by_cases h0 : getStorageSize db = 0
    · exact Or.inl ⟨h0, by simp [getStorageInfo, formatBytes, h0]⟩
    · refine Or.inr ⟨Nat.log 1024 (getStorageSize db),
        Nat.log_lt_of_lt_pow h0 hsmall,
        Nat.pow_log_le_self 1024 h0,
        Nat.lt_pow_succ_log_self (by norm_num) _, ?_⟩
      have hunit := sizeUnits_get_lt (Nat.log 1024 (getStorageSize db))
        (Nat.log_lt_of_lt_pow h0 hsmall)
      simp [getStorageInfo, formatBytes, h0, hunit]

/-- A two-record store totalling 1536 bytes, for the C9 witness. -/
def smallDB : ImageDB :=
  { images := [staleRecord,
      { staleRecord with
          id := 1
          originalFile := { name := "b.png", ftype := "image/png", size := 1526,
                            width := 4, height := 4, lastModified := 0 } }],
    nextId := 2 }

/-- Witness for C9 at a concrete store: 1536 bytes over two records is
below the 1 TiB bound and is displayed in KB. -/
theorem getStorageInfo_summary_witness :
    getStorageSize smallDB < 1024 ^ 4 ∧
    expressesInBase1024Units (getStorageSize smallDB)
      (getStorageInfo smallDB).formattedSize :=
  have hs : getStorageSize smallDB < 1024 ^ 4 := by
    rw [show (1024 : ℕ) ^ 4 = 1099511627776 from by norm_num]
    decide
  ⟨hs, (getStorageInfo_summary smallDB hs).2.2⟩

/-- A store holding a single blob of `1024 ^ 4 = 1099511627776` bytes,
on which the unit table of `formatBytes` is exceeded. -/
def hugeRecord : StoredImage :=
  { id := 1,
    originalFile := { name := "big.bin", ftype := "application/octet-stream",
                      size := 1099511627776, width := 0, height := 0,
                      lastModified := 0 },
    processedFile := none, fileName := "big.bin", lastPreset := none,
    lastFormat := none, createdAt := 0, updatedAt := 0 }

/-- The store of the C9 counterexample. -/
def hugeDB : ImageDB := { images := [hugeRecord], nextId := 2 }

/-- The one-tebibyte total of the C9 counterexample store. -/
theorem hugeDB_size : getStorageSize hugeDB = 1099511627776 := by decide

/-- Counterexample to C9 as stated: at a total of `1024 ^ 4` bytes the
summary string is `"1 undefined"` — the unit is not chosen from
`Bytes`/`KB`/`MB`/`GB` (in particular the string is not the `"1024 GB"`
that the GB unit would give), because `sizes[4]` is out of range. -/
theorem getStorageInfo_units_counterexample :
    (getStorageInfo hugeDB).formattedSize = "1 undefined" ∧
    (getStorageInfo hugeDB).formattedSize ≠
      hundredthsRepr (roundHundredths (getStorageSize hugeDB) (1024 ^ 3)) ++ " " ++
        sizeUnits.getD 3 "" ∧
    ¬ expressesInBase1024Units (getStorageSize hugeDB)
        (getStorageInfo hugeDB).formattedSize := by
  have h4 : (1024 : ℕ) ^ 4 = 1099511627776 := by norm_num
  have h3 : (1024 : ℕ) ^ 3 = 1073741824 := by norm_num
  have hlog : Nat.log 1024 1099511627776 = 4 := by
    rw [← h4]
    exact Nat.log_pow (by norm_num) 4
  have hfmt : (getStorageInfo hugeDB).formattedSize = "1 undefined" := by
    have h1 : (getStorageInfo hugeDB).formattedSize = formatBytes 1099511627776 := by
      simp [getStorageInfo, hugeDB_size]
    rw [h1]
    simp only [formatBytes, if_neg (show ¬ (1099511627776 = 0) by norm_num), hlog, h4]
    decide
  refine ⟨hfmt, ?_, ?_⟩
  · rw [hfmt, hugeDB_size, h3]
    decide
  · rw [hfmt, hugeDB_size]
    rintro (⟨h0, -⟩ | ⟨i, hi4, -, hlt, -⟩)
    · exact absurd h0 (by norm_num)
    · have hle : (1024 : ℕ) ^ (i + 1) ≤ 1024 ^ 4 :=
        Nat.pow_le_pow_right (by norm_num) (by omega)
      rw [h4] at hle
      exact absurd hlt (not_lt.mpr hle)

/-! ### C1 — save onto an existing record -/

/-- The uploaded file used in the C1 development. -/
def fileA : JsFile :=
  { name := "a.png", ftype := "image/png", size := 500,
    width := 100, height := 100, lastModified := 0 }

/-- The processed blob stored by the first save of the C1 development. -/
def blobP : JsFile :=
  { name := "a.png", ftype := "image/png", size := 300,
    width := 100, height := 100, lastModified := 0 }

/-- Store after one full save of `fileA` with processed blob, preset and
format all present. -/
def dbOne : ImageDB :=
  (saveImage { images := [], nextId := 1 } 0 fileA (some blobP)
    (some "us-passport") (some ImgFormat.jpeg)).2

/-- Counterexample to C1 as stated: `dbOne` holds one record named
`"a.png"` with a processed blob, a last preset and a last format; a
second save for the same name that supplies none of the optional fields
returns the existing id but leaves the record with *no* processed blob,
preset or format — the previously stored values are not retained. -/
theorem saveImage_no_merge_counterexample :
    (dbOne.images.map (fun r => r.processedFile) = [some blobP] ∧
     dbOne.images.map (fun r => r.lastPreset) = [some "us-passport"] ∧
     dbOne.images.map (fun r => r.lastFormat) = [some ImgFormat.jpeg]) ∧
    ((saveImage dbOne 5 fileA none none none).1 = 1 ∧
     (saveImage dbOne 5 fileA none none none).2.images.map
       (fun r => r.processedFile) = [none] ∧
     (saveImage dbOne 5 fileA none none none).2.images.map
       (fun r => r.lastPreset) = [none] ∧
     (saveImage dbOne 5 fileA none none none).2.images.map
       (fun r => r.lastFormat) = [none]) := by
  decide

/-- C1 (amended): a save whose name matches an existing record updates
that record in place, returning its id; the supplied fields overwrite
the old values and `updatedAt` is refreshed, but the optional fields not
supplied in the call are cleared (set to absent) rather than retained —
only `createdAt` survives from the old record.  All other records are
untouched and no record is added or removed. -/
theorem saveImage_update_replaces (db : ImageDB) (now : ℤ) (f : JsFile)
    (pf : Option JsFile) (lp : Option String) (lf : Option ImgFormat)
    (e : StoredImage)
    (he : db.images.find? (fun r => r.fileName = f.name) = some e) :
    (saveImage db now f pf lp lf).1 = e.id ∧
    (saveImage db now f pf lp lf).2.images.length = db.images.length ∧
    (∃ r' ∈ (saveImage db now f pf lp lf).2.images,
       r'.id = e.id ∧ r'.originalFile = f ∧ r'.fileName = f.name ∧
       r'.processedFile = pf ∧ r'.lastPreset = lp ∧ r'.lastFormat = lf ∧
       r'.createdAt = e.createdAt ∧ r'.updatedAt = now) ∧
    ∀ s ∈ db.images, s.id ≠ e.id → s ∈ (saveImage db now f pf lp lf).2.images := by
  have hmem : e ∈ db.images := List.mem_of_find?_eq_some he
  refine ⟨?_, ?_, ?_, ?_⟩
  · simp [saveImage, he]
  · simp [saveImage, he]
  · simp only [saveImage, he]
    exact ⟨_, List.mem_map.mpr ⟨e, hmem, rfl⟩, by simp⟩
  · simp only [saveImage, he]
    intro s hs hne
    exact List.mem_map.mpr ⟨s, hs, by simp [hne]⟩

/-- Witness for C1's amended theorem at the concrete store `dbOne`. -/
theorem saveImage_update_replaces_witness :
    (dbOne.images.find? (fun r => r.fileName = fileA.name) =
      some { id := 1, originalFile := fileA, processedFile := some blobP,
             fileName := "a.png", lastPreset := some "us-passport",
             lastFormat := some ImgFormat.jpeg, createdAt := 0, updatedAt := 0 }) ∧
    (saveImage dbOne 5 fileA none none none).1 = 1 :=
  ⟨by decide,
    by
      have h := saveImage_update_replaces dbOne 5 fileA none none none
        { id := 1, originalFile := fileA, processedFile := some blobP,
          fileName := "a.png", lastPreset := some "us-passport",
          lastFormat := some ImgFormat.jpeg, createdAt := 0, updatedAt := 0 }
        (by decide)
      exact h.1⟩

/-! ### C2 — name dedup and createdAt stability -/

/-- The argument tuple of one `saveImage` call. -/
structure SaveCall where
  now : ℤ
  originalFile : JsFile
  processedFile : Option JsFile
  lastPreset : Option String
  lastFormat : Option ImgFormat

/-- A sequence of `saveImage` calls, applied in order. -/
def runSaves (db : ImageDB) (calls : List SaveCall) : ImageDB :=
  calls.foldl
    (fun d a => (saveImage d a.now a.originalFile a.processedFile a.lastPreset a.lastFormat).2)
    db

/-- A unique-filter result pins down `find?`. -/
theorem find?_of_filter_eq_singleton {p : StoredImage → Bool}
    {l : List StoredImage} {e : StoredImage} (h : l.filter p = [e]) :
    l.find? p = some e := by
  induction l with
  | nil => simp at h
  | cons x xs ih =>
      by_cases hx : p x
      · rw [List.filter_cons_of_pos hx] at h
        injection h with h1 h2
        rw [List.find?_cons_of_pos _ hx, h1]
      · rw [List.filter_cons_of_neg hx] at h
        rw [List.find?_cons_of_neg _ hx]
        exact ih h

/-- Updating the unique record matching `p` in place (by its id) keeps
the filter a singleton, now holding the replacement. -/
theorem filter_map_update {l : List StoredImage} {e u : StoredImage}
    {p : StoredImage → Bool} (hu : p u = true) (hue : u.id = e.id)
    (hids : ∀ x ∈ l, x.id = e.id → x = e) (hfil : l.filter p = [e]) :
    (l.map (fun r => if r.id = e.id then u else r)).filter p = [u] := by
  induction l with
  | nil => simp at hfil
  | cons x xs ih =>
      by_cases hx : p x
      · rw [List.filter_cons_of_pos hx] at hfil
        injection hfil with h1 hrest
        subst h1
        rw [List.map_cons]
        have hgx : (if x.id = x.id then u else x) = u := if_pos rfl
        rw [hgx, List.filter_cons_of_pos hu]
        have htail : (xs.map (fun r => if r.id = x.id then u else r)).filter p = [] := by
          rw [List.filter_eq_nil_iff]
          intro y hy
          rcases List.mem_map.mp hy with ⟨z, hz, rfl⟩
          by_cases hzid : z.id = x.id
          · exfalso
            have hze : z = x := hids z (List.mem_cons_of_mem _ hz) hzid
            have hinx : x ∈ xs.filter p := List.mem_filter.mpr ⟨hze ▸ hz, hx⟩
            rw [hrest] at hinx
            cases hinx
          · simp only [if_neg hzid]
            intro hpz
            have hinz : z ∈ xs.filter p := List.mem_filter.mpr ⟨hz, hpz⟩
            rw [hrest] at hinz
            cases hinz
        rw [htail]
      · rw [List.filter_cons_of_neg hx] at hfil
        have hepos : p e = true := by
          have : e ∈ xs.filter p := by rw [hfil]; exact List.mem_cons_self _ _
          exact (List.mem_filter.mp this).2
        have hxid : x.id ≠ e.id := by
          intro h
          have hxe : x = e := hids x (List.mem_cons_self _ _) h
          rw [hxe, hepos] at hx
          exact hx rfl
        rw [List.map_cons]
        have hgx : (if x.id = e.id then u else x) = x := if_neg hxid
        rw [hgx, List.filter_cons_of_neg hx]
        exact ih (fun z hz h => hids z (List.mem_cons_of_mem _ hz) h) hfil

/-- The invariant carried through a same-name save sequence: the store
is well-formed and holds exactly one record with the given name, whose
`createdAt` is `c`. -/
def nameInv (db : ImageDB) (nm : String) (c : ℤ) : Prop :=
  db.WF ∧ ∃ e, db.images.filter (fun r => r.fileName = nm) = [e] ∧ e.createdAt = c

/-- A save on a store with no record of the name creates the unique
name-record with `createdAt = now`. -/
theorem saveImage_fresh_nameInv (db : ImageDB) (hWF : db.WF) (nm : String)
    (hfresh : ∀ r ∈ db.images, r.fileName ≠ nm) (now : ℤ) (f : JsFile)
    (pf : Option JsFile) (lp : Option String) (lf : Option ImgFormat)
    (hname : f.name = nm) :
    nameInv (saveImage db now f pf lp lf).2 nm now := by
  subst hname
  obtain ⟨hpair, hbound⟩ := hWF
  have hfind : db.images.find? (fun r => r.fileName = f.name) = none :=
    List.find?_eq_none.mpr (fun x hx => by simpa using hfresh x hx)
  have hnil : db.images.filter (fun r => r.fileName = f.name) = [] :=
    List.filter_eq_nil_iff.mpr (fun x hx => by simpa using hfresh x hx)
  simp only [nameInv, saveImage, hfind]
  refine ⟨⟨?_, ?_⟩, ?_⟩
  · refine List.pairwise_append.mpr ⟨hpair, List.pairwise_singleton _ _, ?_⟩
    intro x hx b hb
    have hb' : b.id = db.nextId := by
      rcases List.mem_singleton.mp hb with rfl
      rfl
    rw [hb']
    exact Nat.ne_of_lt (hbound x hx)
  · intro r hr
    rcases List.mem_append.mp hr with hr' | hr'
    · exact Nat.lt_trans (hbound r hr') (Nat.lt_succ_self _)
    · rcases List.mem_singleton.mp hr' with rfl
      exact Nat.lt_succ_self _
  · refine ⟨{ id := db.nextId, originalFile := f, processedFile := pf,
              fileName := f.name, lastPreset := lp, lastFormat := lf,
              createdAt := now, updatedAt := now }, ?_, rfl⟩
    rw [List.filter_append, hnil]
    simp

/-- A save on a store satisfying the invariant updates the unique
name-record in place, preserving its `createdAt`. -/
theorem saveImage_keeps_nameInv (db : ImageDB) (nm : String) (c : ℤ)
    (hinv : nameInv db nm c) (now : ℤ) (f : JsFile) (pf : Option JsFile)
    (lp : Option String) (lf : Option ImgFormat) (hname : f.name = nm) :
    nameInv (saveImage db now f pf lp lf).2 nm c := by
  subst hname
  obtain ⟨⟨hpair, hbound⟩, e, hfil, hc⟩ := hinv
  have hemem : e ∈ db.images := by
    have he' : e ∈ db.images.filter (fun r => r.fileName = f.name) := by
      rw [hfil]; exact List.mem_cons_self _ _
    exact (List.mem_filter.mp he').1
  have hfind : db.images.find? (fun r => r.fileName = f.name) = some e :=
    find?_of_filter_eq_singleton hfil
  simp only [nameInv, saveImage, hfind]
  have hgid : ∀ r : StoredImage,
      ((fun r => if r.id = e.id then
          ({ id := e.id, originalFile := f, processedFile := pf,
             fileName := f.name, lastPreset := lp, lastFormat := lf,
             createdAt := e.createdAt, updatedAt := now } : StoredImage)
        else r) r).id = r.id := by
    intro r
    by_cases h : r.id = e.id <;> simp [h]
  refine ⟨⟨?_, ?_⟩, ?_⟩
  · rw [List.pairwise_map]
    exact hpair.imp (fun h => by rw [hgid, hgid]; exact h)
  · intro r hr
    rcases List.mem_map.mp hr with ⟨z, hz, rfl⟩
    rw [hgid]
    exact hbound z hz
  · exact ⟨{ id := e.id, originalFile := f, processedFile := pf,
             fileName := f.name, lastPreset := lp, lastFormat := lf,
             createdAt := e.createdAt, updatedAt := now },
      filter_map_update (by simp) rfl
        (fun x hx h => eq_of_mem_of_id_eq hpair hx hemem h) hfil, hc⟩

/-- The invariant is preserved by any same-name save sequence. -/
theorem runSaves_nameInv (nm : String) (c : ℤ) (calls : List SaveCall)
    (hnames : ∀ s ∈ calls, s.originalFile.name = nm) :
    ∀ db, nameInv db nm c → nameInv (runSaves db calls) nm c := by
  induction calls with
  | nil => intro db h; simpa [runSaves] using h
  | cons a rest ih =>
      intro db h
      have hstep : runSaves db (a :: rest) =
          runSaves (saveImage db a.now a.originalFile a.processedFile
            a.lastPreset a.lastFormat).2 rest := by
        simp [runSaves]
      rw [hstep]
      exact ih (fun s hs => hnames s (List.mem_cons_of_mem _ hs)) _
        (saveImage_keeps_nameInv db nm c h a.now a.originalFile a.processedFile
          a.lastPreset a.lastFormat (hnames a (List.mem_cons_self _ _)))

/-- C2: starting from a well-formed store with no record of the name, a
nonempty sequence of saves for that name leaves exactly one record with
the name, and its `createdAt` is the `now` of the first save — later
saves never change it. -/
theorem saveImage_dedup_createdAt (db : ImageDB) (hWF : db.WF) (nm : String)
    (a : SaveCall) (rest : List SaveCall)
    (hnames : ∀ s ∈ a :: rest, s.originalFile.name = nm)
    (hfresh : ∀ r ∈ db.images, r.fileName ≠ nm) :
    ((runSaves db (a :: rest)).images.filter (fun r => r.fileName = nm)).length = 1 ∧
    ∀ r ∈ (runSaves db (a :: rest)).images, r.fileName = nm → r.createdAt = a.now := by
  have h1 := saveImage_fresh_nameInv db hWF nm hfresh a.now a.originalFile
    a.processedFile a.lastPreset a.lastFormat (hnames a (List.mem_cons_self _ _))
  have h2 := runSaves_nameInv nm a.now rest
    (fun s hs => hnames s (List.mem_cons_of_mem _ hs)) _ h1
  have hstep : runSaves db (a :: rest) =
      runSaves (saveImage db a.now a.originalFile a.processedFile
        a.lastPreset a.lastFormat).2 rest := by
    simp [runSaves]
  rw [hstep]
  obtain ⟨-, e, hfil, hc⟩ := h2
  refine ⟨by rw [hfil]; rfl, ?_⟩
  intro r hr hrname
  have hre : r = e := by
    have hrin : r ∈ (runSaves (saveImage db a.now a.originalFile a.processedFile
        a.lastPreset a.lastFormat).2 rest).images.filter
          (fun r => r.fileName = nm) :=
      List.mem_filter.mpr ⟨hr, decide_eq_true hrname⟩
    rw [hfil] at hrin
    exact List.mem_singleton.mp hrin
  rw [hre, hc]

/-- Two concrete saves of the C2 witness: an upload followed by the
arrival of its processed blob. -/
def callOne : SaveCall :=
  { now := 10, originalFile := fileA, processedFile := none,
    lastPreset := none, lastFormat := none }

/-- Second call of the C2 witness. -/
def callTwo : SaveCall :=
  { now := 20, originalFile := fileA, processedFile := some blobP,
    lastPreset := some "linkedin", lastFormat := some ImgFormat.jpeg }

/-- Witness for C2 at a concrete store and two-save sequence. -/
theorem saveImage_dedup_createdAt_witness :
    (ImageDB.mk [] 1).WF ∧
    ((runSaves (ImageDB.mk [] 1) [callOne, callTwo]).images.filter
      (fun r => r.fileName = "a.png")).length = 1 :=
  ⟨by decide,
    (saveImage_dedup_createdAt (ImageDB.mk [] 1) (by decide) "a.png" callOne
      [callTwo] (by decide) (by decide)).1⟩

/-! ### C4, C5, C6 — crop planner geometry -/

/-- Every catalog preset other than `"none"` has positive target
dimensions. -/
theorem preset_dims_pos (preset : PhotoPreset) (hp : preset ∈ photoPresets)
    (hn : preset.id ≠ "none") : 0 < preset.width ∧ 0 < preset.height := by
  fin_cases hp
  · exact absurd rfl hn
  · exact ⟨by norm_num, by norm_num⟩
  · exact ⟨by norm_num, by norm_num⟩
  · exact ⟨by norm_num, by norm_num⟩

/-- Geometry of `calculateCropArea` for positive source and target
dimensions: the planned rectangle is inside the source bounds, has the
target aspect ratio exactly, and has positive extent. -/
theorem calculateCropArea_bounded (imgW imgH : ℚ) (h1 : 0 < imgW) (h2 : 0 < imgH)
    (preset : PhotoPreset) (hn : preset.id ≠ "none")
    (hw : 0 < preset.width) (hh : 0 < preset.height)
    (face : Option Rect) (c : Rect)
    (hc : calculateCropArea imgW imgH preset face = some c) :
    0 ≤ c.x ∧ 0 ≤ c.y ∧ c.x + c.width ≤ imgW ∧ c.y + c.height ≤ imgH ∧
    c.width * preset.height = c.height * preset.width ∧
    0 < c.width ∧ 0 < c.height := by
  have har : 0 < preset.width / preset.height := div_pos hw hh
  simp only [calculateCropArea, if_neg hn] at hc
  by_cases hgt : imgW / imgH > preset.width / preset.height
  · rw [if_pos hgt] at hc
    have hcw_lt : imgH * (preset.width / preset.height) < imgW := by
      have hlt := (lt_div_iff h2).mp hgt
      linarith
    have hcw_pos : 0 < imgH * (preset.width / preset.height) := mul_pos h2 har
    have hratio : (imgH * (preset.width / preset.height)) * preset.height =
        imgH * preset.width := by
      field_simp
    cases face with
    | none =>
        simp only [Option.some.injEq] at hc
        subst hc
        dsimp only
        refine ⟨?_, le_refl 0, ?_, ?_, hratio, hcw_pos, h2⟩
        · apply div_nonneg ?_ (by norm_num)
          linarith
        · linarith
        · linarith
    | some f =>
        simp only [Option.some.injEq] at hc
        subst hc
        dsimp only
        have hxle : max 0 (min (imgW - imgH * (preset.width / preset.height))
            (f.x + f.width / 2 - imgH * (preset.width / preset.height) / 2)) ≤
            imgW - imgH * (preset.width / preset.height) :=
          max_le (by linarith) (min_le_left _ _)
        refine ⟨le_max_left 0 _, le_refl 0, ?_, ?_, hratio, hcw_pos, h2⟩
        · linarith
        · linarith
  · rw [if_neg hgt] at hc
    have hle : imgW / imgH ≤ preset.width / preset.height := not_lt.mp hgt
    have h3 : imgW ≤ preset.width / preset.height * imgH := by
      have := (div_le_iff h2).mp hle
      linarith
    have hch_le : imgW / (preset.width / preset.height) ≤ imgH :=
      (div_le_iff har).mpr (by linarith)
    have hch_pos : 0 < imgW / (preset.width / preset.height) := div_pos h1 har
    have hratio : imgW * preset.height =
        (imgW / (preset.width / preset.height)) * preset.width := by
      field_simp
    cases face with
    | none =>
        simp only [Option.some.injEq] at hc
        subst hc
        dsimp only
        refine ⟨le_refl 0, ?_, ?_, ?_, hratio, h1, hch_pos⟩
        · apply div_nonneg ?_ (by norm_num)
          linarith
        · linarith
        · linarith
    | some f =>
        simp only [Option.some.injEq] at hc
        subst hc
        dsimp only
        have hyle : max 0 (min (imgH - imgW / (preset.width / preset.height))
            (f.y + f.height / 2 - imgW / (preset.width / preset.height) * (2 / 5))) ≤
            imgH - imgW / (preset.width / preset.height) :=
          max_le (by linarith) (min_le_left _ _)
        refine ⟨le_refl 0, le_max_left 0 _, ?_, ?_, hratio, h1, hch_pos⟩
        · linarith
        · linarith

/-- C4: for any source of positive dimensions, any non-`"none"` catalog
preset and any (or no) subject rectangle, the planned crop lies fully
inside the source bounds and its width/height ratio equals the preset's
target ratio exactly. -/
theorem calculateCropArea_inbounds (imgW imgH : ℚ) (hW : 1 ≤ imgW) (hH : 1 ≤ imgH)
    (preset : PhotoPreset) (hp : preset ∈ photoPresets) (hn : preset.id ≠ "none")
    (face : Option Rect) (c : Rect)
    (hc : calculateCropArea imgW imgH preset face = some c) :
    0 ≤ c.x ∧ 0 ≤ c.y ∧ c.x + c.width ≤ imgW ∧ c.y + c.height ≤ imgH ∧
    c.width * preset.height = c.height * preset.width := by
  obtain ⟨hw, hh⟩ := preset_dims_pos preset hp hn
  obtain ⟨g1, g2, g3, g4, g5, -, -⟩ :=
    calculateCropArea_bounded imgW imgH (by linarith) (by linarith) preset hn hw hh
      face c hc
  exact ⟨g1, g2, g3, g4, g5⟩

/-- The `"linkedin"` entry of the catalog, used in concrete scenarios. -/
def linkedinPreset : PhotoPreset :=
  { id := "linkedin", label := "LinkedIn Profile", width := 400, height := 400,
    minHeadWidth := 200, maxHeadWidth := 320, format := ImgFormat.jpeg,
    maxFileSize := none,
    description := "400x400px, square format for social media" }

/-- Witness for C4 on a concrete plan: a 1000x500 source with the 1:1
LinkedIn preset and no subject. -/
theorem calculateCropArea_inbounds_witness :
    calculateCropArea 1000 500 linkedinPreset none =
      some { x := 250, y := 0, width := 500, height := 500 } ∧
    (0 : ℚ) ≤ 250 ∧ (250 : ℚ) + 500 ≤ 1000 ∧
    (500 : ℚ) * linkedinPreset.height = 500 * linkedinPreset.width := by
  have hc : calculateCropArea 1000 500 linkedinPreset none =
      some { x := 250, y := 0, width := 500, height := 500 } := by
    simp only [calculateCropArea, linkedinPreset]
    norm_num
    exact fun h => absurd h (by decide)
  have hmem : linkedinPreset ∈ photoPresets := by
    rw [photoPresets]
    exact List.mem_cons_of_mem _ (List.mem_cons_of_mem _
      (List.mem_cons_of_mem _ (List.mem_cons_self _ _)))
  have h := calculateCropArea_inbounds 1000 500 (by norm_num) (by norm_num)
    linkedinPreset hmem (by simp [linkedinPreset]) none _ hc
  exact ⟨hc, h.1, h.2.2.1, h.2.2.2.2⟩

/-- C5: with no subject region the planner centres the largest
target-ratio rectangle: when the source is relatively wider, crop
height is the source height, width follows the target ratio, `y = 0`
and `x` centres horizontally; otherwise crop width is the source width,
height follows the ratio, `x = 0` and `y` centres vertically.  On a
1000x500 source with the 1:1 LinkedIn preset the plan is
`{x := 250, y := 0, width := 500, height := 500}`. -/
theorem calculateCropArea_no_subject (imgW imgH : ℚ) (hW : 1 ≤ imgW)
    (hH : 1 ≤ imgH) (preset : PhotoPreset) (hp : preset ∈ photoPresets)
    (hn : preset.id ≠ "none") :
    (calculateCropArea imgW imgH preset none =
      some (if imgW / imgH > preset.width / preset.height then
          { x := (imgW - imgH * (preset.width / preset.height)) / 2, y := 0,
            width := imgH * (preset.width / preset.height), height := imgH }
        else
          { x := 0, y := (imgH - imgW / (preset.width / preset.height)) / 2,
            width := imgW, height := imgW / (preset.width / preset.height) })) ∧
    calculateCropArea 1000 500 linkedinPreset none =
      some { x := 250, y := 0, width := 500, height := 500 } := by
  constructor
  · simp only [calculateCropArea, if_neg hn]
    split_ifs with h
    · rfl
    · rfl
  · simp only [calculateCropArea, linkedinPreset]
    norm_num
    exact fun h => absurd h (by decide)

/-- Witness for C5 on the spec's concrete scenario. -/
theorem calculateCropArea_no_subject_witness :
    (1 : ℚ) ≤ 1000 ∧
    calculateCropArea 1000 500 linkedinPreset none =
      some { x := 250, y := 0, width := 500, height := 500 } :=
  ⟨by norm_num,
    (calculateCropArea_no_subject 1000 500 (by norm_num) (by norm_num)
      linkedinPreset
      (by
        rw [photoPresets]
        exact List.mem_cons_of_mem _ (List.mem_cons_of_mem _
          (List.mem_cons_of_mem _ (List.mem_cons_self _ _))))
      (by simp [linkedinPreset])).2⟩

/-- C6: with a subject region, on the unconstrained axis the crop is
anchored to the subject and clamped into the source: when the source is
relatively wider, `x` clamps the value that centres the subject
horizontally (so in the unclamped range the subject's horizontal centre
is the crop's horizontal centre); when the source is relatively taller
or equal, `y` clamps the value that puts the subject's vertical centre
at 40% of the crop height from the top (not the geometric centre). -/
theorem calculateCropArea_subject_anchored (imgW imgH : ℚ) (hW : 1 ≤ imgW)
    (hH : 1 ≤ imgH) (preset : PhotoPreset) (hp : preset ∈ photoPresets)
    (hn : preset.id ≠ "none") (f : Rect) (c : Rect)
    (hc : calculateCropArea imgW imgH preset (some f) = some c) :
    (imgW / imgH > preset.width / preset.height →
      c.x = max 0 (min (imgW - c.width) (f.x + f.width / 2 - c.width / 2)) ∧
      0 ≤ c.x ∧ c.x + c.width ≤ imgW ∧
      (0 ≤ f.x + f.width / 2 - c.width / 2 →
        f.x + f.width / 2 - c.width / 2 ≤ imgW - c.width →
        c.x + c.width / 2 = f.x + f.width / 2)) ∧
    (¬ imgW / imgH > preset.width / preset.height →
      c.y = max 0 (min (imgH - c.height) (f.y + f.height / 2 - c.height * (2 / 5))) ∧
      0 ≤ c.y ∧ c.y + c.height ≤ imgH ∧
      (0 ≤ f.y + f.height / 2 - c.height * (2 / 5) →
        f.y + f.height / 2 - c.height * (2 / 5) ≤ imgH - c.height →
        c.y + c.height * (2 / 5) = f.y + f.height / 2)) := by
  obtain ⟨hw, hh⟩ := preset_dims_pos preset hp hn
  have h1 : (0 : ℚ) < imgW := by linarith
  have h2 : (0 : ℚ) < imgH := by linarith
  have har : 0 < preset.width / preset.height := div_pos hw hh
  simp only [calculateCropArea, if_neg hn] at hc
  by_cases hgt : imgW / imgH > preset.width / preset.height
  · rw [if_pos hgt] at hc
    simp only [Option.some.injEq] at hc
    subst hc
    dsimp only
    have hcw_lt : imgH * (preset.width / preset.height) < imgW := by
      have hlt := (lt_div_iff h2).mp hgt
      linarith
    refine ⟨fun _ => ⟨rfl, le_max_left 0 _, ?_, ?_⟩, fun hcon => absurd hgt hcon⟩
    · have hxle : max 0 (min (imgW - imgH * (preset.width / preset.height))
          (f.x + f.width / 2 - imgH * (preset.width / preset.height) / 2)) ≤
          imgW - imgH * (preset.width / preset.height) :=
        max_le (by linarith) (min_le_left _ _)
      linarith
    · intro hv0 hvle
      rw [min_eq_right hvle, max_eq_right hv0]
      ring
  · rw [if_neg hgt] at hc
    simp only [Option.some.injEq] at hc
    subst hc
    dsimp only
    have hle : imgW / imgH ≤ preset.width / preset.height := not_lt.mp hgt
    have h3 : imgW ≤ preset.width / preset.height * imgH := by
      have := (div_le_iff h2).mp hle
      linarith
    have hch_le : imgW / (preset.width / preset.height) ≤ imgH :=
      (div_le_iff har).mpr (by linarith)
    refine ⟨fun hcon => absurd hcon hgt, fun _ => ⟨rfl, le_max_left 0 _, ?_, ?_⟩⟩
    · have hyle : max 0 (min (imgH - imgW / (preset.width / preset.height))
          (f.y + f.height / 2 - imgW / (preset.width / preset.height) * (2 / 5))) ≤
          imgH - imgW / (preset.width / preset.height) :=
        max_le (by linarith) (min_le_left _ _)
      linarith
    · intro hv0 hvle
      rw [min_eq_right hvle, max_eq_right hv0]
      ring

/-- The detected subject rectangle of the C6 witness. -/
def sampleFace : Rect := { x := 600, y := 100, width := 100, height := 100 }

/-- The crop the planner produces in the C6 witness. -/
def sampleCrop : Rect := { x := 400, y := 0, width := 500, height := 500 }

/-- Witness for C6: a subject centred at `x = 650` in a 1000x500 source
with the 1:1 LinkedIn preset puts the crop at `x = 400`, centring the
subject. -/
theorem calculateCropArea_subject_anchored_witness :
    calculateCropArea 1000 500 linkedinPreset (some sampleFace) = some sampleCrop ∧
    sampleCrop.x =
      max 0 (min ((1000 : ℚ) - sampleCrop.width)
        (sampleFace.x + sampleFace.width / 2 - sampleCrop.width / 2)) := by
  have hc : calculateCropArea 1000 500 linkedinPreset (some sampleFace) =
      some sampleCrop := by
    simp only [calculateCropArea, linkedinPreset, sampleFace, sampleCrop]
    norm_num
    exact fun h => absurd h (by decide)
  refine ⟨hc, ?_⟩
  have hmem : linkedinPreset ∈ photoPresets := by
    rw [photoPresets]
    exact List.mem_cons_of_mem _ (List.mem_cons_of_mem _
      (List.mem_cons_of_mem _ (List.mem_cons_self _ _)))
  have h := (calculateCropArea_subject_anchored 1000 500 (by norm_num)
    (by norm_num) linkedinPreset hmem (by simp [linkedinPreset])
    sampleFace _ hc).1
    (by norm_num [linkedinPreset])
  exact h.1

/-! ### C8 — brightness and contrast effects -/

/-- The effect pass does not change the array length. -/
theorem applyEffectData_length (f : ℕ → ℕ) (data : List ℕ) :
    ∀ i, (applyEffectData f i data).length = data.length := by
  induction data with
  | nil => intro i; rfl
  | cons c rest ih =>
      intro i
      simp [applyEffectData, ih]

/-- Pointwise description of the effect pass: positions `3 mod 4`
(relative to the walk's start index) are untouched, all others get the
channel function. -/
theorem applyEffectData_getD (f : ℕ → ℕ) (data : List ℕ) :
    ∀ i j, (applyEffectData f i data).getD j 0 =
      if j < data.length then
        (if (i + j) % 4 = 3 then data.getD j 0 else f (data.getD j 0))
      else 0 := by
  induction data with
  | nil => intro i j; simp [applyEffectData]
  | cons c rest ih =>
      intro i j
      cases j with
      | zero => simp [applyEffectData]
      | succ j' =>
          have harith : i + 1 + j' = i + (j' + 1) := by omega
          simp only [applyEffectData, List.getD_cons_succ, List.length_cons]
          rw [ih (i + 1) j', harith]
          by_cases hlt : j' < rest.length
          · simp [hlt]
          · simp [hlt]

/-- A channel function that fixes every entry makes the pass the
identity. -/
theorem applyEffectData_id (f : ℕ → ℕ) (data : List ℕ)
    (hf : ∀ b ∈ data, f b = b) : ∀ i, applyEffectData f i data = data := by
  induction data with
  | nil => intro i; rfl
  | cons c rest ih =>
      intro i
      simp only [applyEffectData]
      rw [ih (fun b hb => hf b (List.mem_cons_of_mem _ hb))]
      by_cases h : i % 4 = 3
      · rw [if_pos h]
      · rw [if_neg h, hf c (List.mem_cons_self _ _)]

/-- Storing a byte-ranged natural through `Uint8ClampedArray` returns
it unchanged. -/
theorem toUint8Clamp_natCast (c : ℕ) (hc : c ≤ 255) : toUint8Clamp (c : ℚ) = c := by
  unfold toUint8Clamp
  rcases Nat.eq_zero_or_pos c with rfl | hpos
  · norm_num
  · have h0 : ¬ ((c : ℚ) ≤ 0) := by
      push_neg
      exact_mod_cast hpos
    rw [if_neg h0]
    by_cases h255 : (255 : ℚ) ≤ (c : ℚ)
    · have hceq : c = 255 := le_antisymm hc (by exact_mod_cast h255)
      rw [if_pos h255, hceq]
    · rw [if_neg h255]
      have hfloor : ⌊(c : ℚ)⌋ = (c : ℤ) := Int.floor_natCast c
      simp only [hfloor]
      have hr : (c : ℚ) - ((c : ℤ) : ℚ) = 0 := by push_cast; ring
      rw [hr, if_pos (by norm_num : (0 : ℚ) < 1 / 2)]
      exact Int.toNat_natCast c

/-- Intensity 50 leaves a byte channel unchanged. -/
theorem brightnessChannel_fifty (c : ℕ) (hc : c ≤ 255) :
    brightnessChannel 50 c = c := by
  unfold brightnessChannel
  have h1 : ((50 : ℕ) : ℚ) / 50 = 1 := by norm_num
  rw [h1, mul_one, min_eq_right (by exact_mod_cast hc : (c : ℚ) ≤ 255)]
  exact toUint8Clamp_natCast c hc

/-- Intensity 100 doubles a byte channel, clamped at 255. -/
theorem brightnessChannel_hundred (c : ℕ) (hc : c ≤ 255) :
    brightnessChannel 100 c = min 255 (2 * c) := by
  unfold brightnessChannel
  have h1 : ((100 : ℕ) : ℚ) / 50 = 2 := by norm_num
  have h2 : min (255 : ℚ) ((c : ℚ) * 2) = ((min 255 (2 * c) : ℕ) : ℚ) := by
    rw [Nat.cast_min]
    push_cast
    rw [mul_comm]
  rw [h1, h2]
  exact toUint8Clamp_natCast _ (min_le_left _ _)

/-- C8: for intensities in `[0, 100]` and byte-ranged pixel data, the
brightness pass multiplies each RGB channel by `intensity / 50` clamped
to the channel maximum, the contrast pass maps each RGB channel through
`factor * (channel - 128) + 128` with
`factor = 259 * (intensity + 255) / (255 * (259 - intensity))` clamped
to the valid channel range, and in both passes every alpha byte (index
`3 mod 4`) is untouched; in particular intensity 50 leaves the data
unchanged and intensity 100 doubles each RGB channel, clamped. -/
theorem applyEffects_pixels (v : ℕ) (hv : v ≤ 100) (data : List ℕ)
    (hbytes : ∀ b ∈ data, b ≤ 255) :
    (applyBrightness v data).length = data.length ∧
    (applyContrast v data).length = data.length ∧
    (∀ j, j < data.length → j % 4 = 3 →
      (applyBrightness v data).getD j 0 = data.getD j 0 ∧
      (applyContrast v data).getD j 0 = data.getD j 0) ∧
    (∀ j, j < data.length → ¬ j % 4 = 3 →
      (applyBrightness v data).getD j 0 =
        toUint8Clamp (min 255 ((data.getD j 0 : ℚ) * ((v : ℚ) / 50))) ∧
      (applyContrast v data).getD j 0 =
        toUint8Clamp ((259 * ((v : ℚ) + 255)) / (255 * (259 - (v : ℚ))) *
          ((data.getD j 0 : ℚ) - 128) + 128)) ∧
    applyBrightness 50 data = data ∧
    (∀ j, j < data.length → ¬ j % 4 = 3 →
      (applyBrightness 100 data).getD j 0 = min 255 (2 * data.getD j 0)) := by
  refine ⟨applyEffectData_length _ data 0, applyEffectData_length _ data 0,
    ?_, ?_, ?_, ?_⟩
  · intro j hj h3
    rw [applyBrightness, applyEffectData_getD, if_pos hj, Nat.zero_add, if_pos h3]
    rw [applyContrast, applyEffectData_getD, if_pos hj, Nat.zero_add, if_pos h3]
    exact ⟨rfl, rfl⟩
  · intro j hj h3
    rw [applyBrightness, applyEffectData_getD, if_pos hj, Nat.zero_add, if_neg h3]
    rw [applyContrast, applyEffectData_getD, if_pos hj, Nat.zero_add, if_neg h3]
    exact ⟨rfl, rfl⟩
  · exact applyEffectData_id _ data
      (fun b hb => brightnessChannel_fifty b (hbytes b hb)) 0
  · intro j hj h3
    rw [applyBrightness, applyEffectData_getD, if_pos hj, Nat.zero_add, if_neg h3]
    refine brightnessChannel_hundred _ (hbytes _ ?_)
    rw [List.getD_eq_getElem?_getD, List.getElem?_eq_getElem hj]
    exact List.getElem_mem hj

/-- Witness for C8 at one concrete RGBA pixel row. -/
theorem applyEffects_pixels_witness :
    ((50 : ℕ) ≤ 100 ∧ ∀ b ∈ ([12, 250, 3, 200] : List ℕ), b ≤ 255) ∧
    applyBrightness 50 ([12, 250, 3, 200] : List ℕ) = [12, 250, 3, 200] :=
  ⟨⟨by norm_num, by decide⟩,
    (applyEffects_pixels 50 (by norm_num) ([12, 250, 3, 200] : List ℕ)
      (by decide)).2.2.2.2.1⟩

/-! ### C3 — size-budgeted JPEG encoding -/

/-- Every quality the loop tests before its last decrement is above the
binary64 literal `0.1`: drift keeps index 8 (`0.10000000000000014`)
just above it. -/
theorem fpQuality_gt_floor : ∀ k, k ≤ 8 → fpPointOne < fpQuality k := by
  intro k hk
  interval_cases k <;> norm_num [fpQuality, jsQualitySeq, fpPointOne]

/-- The ninth decrement (`1.39e-16`) falls below the `0.1` floor. -/
theorem fpQuality_nine_le_floor : fpQuality 9 ≤ fpPointOne := by
  norm_num [fpQuality, jsQualitySeq, fpPointOne]

/-- The ninth decrement is the minimum quality of the whole chain. -/
theorem fpQuality_nine_min : ∀ k, k ≤ 9 → fpQuality 9 ≤ fpQuality k := by
  intro k hk
  interval_cases k <;> norm_num [fpQuality, jsQualitySeq]

/-- Invariant proof for the budget loop: starting at `attempts ≤ 9`
decrements with matching fuel, the loop returns the last encode, only
re-encodes while over budget, and stops either within budget or at the
ninth decrement. -/
theorem encodeLoopGo_spec (enc : ℚ → ℕ) (target : ℕ) :
    ∀ fuel attempts len,
      len = enc (fpQuality attempts) →
      attempts ≤ 9 →
      attempts + fuel = 10 →
      (∀ j, j < attempts → (enc (fpQuality j) : ℚ) * (3 / 4) > (target : ℚ)) →
      (encodeLoopGo enc target fuel attempts len).1 ≤ 9 ∧
      (encodeLoopGo enc target fuel attempts len).2 =
        enc (fpQuality (encodeLoopGo enc target fuel attempts len).1) ∧
      (∀ j, j < (encodeLoopGo enc target fuel attempts len).1 →
        (enc (fpQuality j) : ℚ) * (3 / 4) > (target : ℚ)) ∧
      (¬ (((encodeLoopGo enc target fuel attempts len).2 : ℚ) * (3 / 4) >
          (target : ℚ)) ∨
        (encodeLoopGo enc target fuel attempts len).1 = 9) := by
  intro fuel
  induction fuel with
  | zero =>
      intro attempts len hlen hle hfuel hist
      omega
  | succ fuel ih =>
      intro attempts len hlen hle hfuel hist
      by_cases hcond : ((len : ℚ) * (3 / 4) > (target : ℚ) ∧
          fpQuality attempts > fpPointOne ∧ attempts < 10)
      · have hne9 : attempts ≠ 9 := by
          intro h9
          rw [h9] at hcond
          exact absurd hcond.2.1 (not_lt.mpr fpQuality_nine_le_floor)
        have hstep : encodeLoopGo enc target (fuel + 1) attempts len =
            encodeLoopGo enc target fuel (attempts + 1)
              (enc (fpQuality (attempts + 1))) := by
          simp only [encodeLoopGo, if_pos hcond]
        rw [hstep]
        refine ih (attempts + 1) _ rfl (by omega) (by omega) ?_
        intro j hj
        rcases Nat.lt_succ_iff_lt_or_eq.mp hj with hj' | hj'
        · exact hist j hj'
        · rw [hj']
          rw [hlen] at hcond
          exact hcond.1
      · have hstep : encodeLoopGo enc target (fuel + 1) attempts len =
            (attempts, len) := by
          simp only [encodeLoopGo, if_neg hcond]
        rw [hstep]
        refine ⟨hle, hlen, hist, ?_⟩
        rcases not_and_or.mp hcond with hover | hrest
        · exact Or.inl hover
        · rcases not_and_or.mp hrest with hq | hcnt
          · right
            by_contra h9
            exact hq (fpQuality_gt_floor attempts (by omega))
          · omega

/-- C3: the budgeted JPEG export starts at binary64 `0.9`, re-encodes
only while the size estimate (`length * 0.75`) exceeds the byte budget,
performs at most nine quality decrements (ten encodes in all), always
returns the bytes of the last encode, and its last encode is either
within budget or the ninth decrement; for a budget no encode can meet,
it returns the minimum-quality attempt of the chain after exactly ten
encodes. -/
theorem applyChanges_jpeg_budget (enc : ℚ → ℕ) (mfs : ℕ) :
    fpQuality 0 = fpPointNine ∧
    (encodeJpegWithBudget enc mfs).1 ≤ 9 ∧
    (encodeJpegWithBudget enc mfs).2 =
      enc (fpQuality (encodeJpegWithBudget enc mfs).1) ∧
    (∀ j, j < (encodeJpegWithBudget enc mfs).1 →
      (enc (fpQuality j) : ℚ) * (3 / 4) > ((mfs * 1024 : ℕ) : ℚ)) ∧
    (¬ (((encodeJpegWithBudget enc mfs).2 : ℚ) * (3 / 4) >
        ((mfs * 1024 : ℕ) : ℚ)) ∨
      (encodeJpegWithBudget enc mfs).1 = 9) ∧
    ((∀ q : ℚ, (enc q : ℚ) * (3 / 4) > ((mfs * 1024 : ℕ) : ℚ)) →
      (encodeJpegWithBudget enc mfs).1 = 9 ∧
      (encodeJpegWithBudget enc mfs).2 = enc (fpQuality 9) ∧
      ∀ k, k ≤ 9 → fpQuality 9 ≤ fpQuality k) := by
  have hspec := encodeLoopGo_spec enc (mfs * 1024) 10 0 (enc (fpQuality 0)) rfl
    (by omega) (by omega) (by omega)
  have hdef : encodeJpegWithBudget enc mfs =
      encodeLoopGo enc (mfs * 1024) 10 0 (enc (fpQuality 0)) := rfl
  rw [hdef]
  obtain ⟨g1, g2, g3, g4⟩ := hspec
  refine ⟨rfl, g1, g2, g3, g4, ?_⟩
  intro hall
  have h9 : (encodeLoopGo enc (mfs * 1024) 10 0 (enc (fpQuality 0))).1 = 9 := by
    rcases g4 with hno | h9
    · exact absurd (by rw [g2]; exact hall _) hno
    · exact h9
  exact ⟨h9, by rw [g2, h9], fpQuality_nine_min⟩

/-- Witness for C3's unachievable-budget branch: a constant 1 MB encode
against the China-visa 120 KB budget runs the full chain and returns
the tenth encode. -/
theorem applyChanges_jpeg_budget_witness :
    (∀ q : ℚ, (((fun _ : ℚ => 1000000) q : ℕ) : ℚ) * (3 / 4) >
      ((120 * 1024 : ℕ) : ℚ)) ∧
    (encodeJpegWithBudget (fun _ => 1000000) 120).1 = 9 ∧
    (encodeJpegWithBudget (fun _ => 1000000) 120).2 = 1000000 := by
  have hall : ∀ q : ℚ, (((fun _ : ℚ => 1000000) q : ℕ) : ℚ) * (3 / 4) >
      ((120 * 1024 : ℕ) : ℚ) := by
    intro q
    norm_num
  have h := (applyChanges_jpeg_budget (fun _ => 1000000) 120).2.2.2.2.2 hall
  exact ⟨hall, h.1, h.2.1⟩

/-! ### C10 — uploads are downscaled before persisting -/

/-- The resize step never changes the file's name. -/
theorem resizeImageForProcessing_name (loadOk ctxOk : Bool)
    (encode : String → ℚ → ℕ × ℕ → Option ℕ) (file : JsFile) (maxHeight : ℕ) :
    (resizeImageForProcessing loadOk ctxOk encode file maxHeight).name = file.name := by
  unfold resizeImageForProcessing
  cases loadOk <;> cases ctxOk <;> simp
  all_goals
    rcases hE : encode file.ftype fpPointNine (resizeDims file.width file.height maxHeight)
      with - | sz <;> simp [hE]

/-- C10: `onDrop` persists the *resized* file as the record's original —
on the success path an input taller than 512 px is stored at height
exactly 512 and width `Math.round(512 * aspectRatio)` re-encoded in the
input's MIME type at quality 0.9, an input of height at most 512 keeps
its dimensions, and on any load/context/encode failure the unmodified
input file is persisted instead. -/
theorem resize_persist_downscaled (loadOk ctxOk : Bool)
    (encode : String → ℚ → ℕ × ℕ → Option ℕ) (db : ImageDB) (now : ℤ)
    (file : JsFile) :
    (∃ r ∈ (onDropPersistOne loadOk ctxOk encode db now file).images,
       r.fileName = file.name ∧
       r.originalFile = resizeImageForProcessing loadOk ctxOk encode file 512) ∧
    (loadOk = true → ctxOk = true →
      ∀ sz, encode file.ftype fpPointNine
          (resizeDims file.width file.height 512) = some sz →
        (file.height > 512 →
          (resizeImageForProcessing loadOk ctxOk encode file 512).height = 512 ∧
          ((resizeImageForProcessing loadOk ctxOk encode file 512).width : ℤ) =
            jsRound ((512 : ℚ) * ((file.width : ℚ) / (file.height : ℚ))) ∧
          (resizeImageForProcessing loadOk ctxOk encode file 512).ftype =
            file.ftype) ∧
        (file.height ≤ 512 →
          (resizeImageForProcessing loadOk ctxOk encode file 512).width =
            file.width ∧
          (resizeImageForProcessing loadOk ctxOk encode file 512).height =
            file.height)) ∧
    ((loadOk = false ∨ ctxOk = false ∨
        encode file.ftype fpPointNine
          (resizeDims file.width file.height 512) = none) →
      resizeImageForProcessing loadOk ctxOk encode file 512 = file) := by
  refine ⟨?_, ?_, ?_⟩
  · have hname := resizeImageForProcessing_name loadOk ctxOk encode file 512
    cases hfind : db.images.find? (fun r =>
        r.fileName = (resizeImageForProcessing loadOk ctxOk encode file 512).name) with
    | some e =>
        simp only [onDropPersistOne, saveImage, hfind]
        refine ⟨_, List.mem_map.mpr ⟨e, List.mem_of_find?_eq_some hfind, rfl⟩, ?_⟩
        simp [hname]
    | none =>
        simp only [onDropPersistOne, saveImage, hfind]
        refine ⟨_, List.mem_append.mpr (Or.inr (List.mem_singleton.mpr rfl)), ?_⟩
        simp [hname]
  · intro hl hcx sz hE
    subst hl
    subst hcx
    constructor
    · intro h512
      have hdims : resizeDims file.width file.height 512 =
          ((jsRound (((512 : ℕ) : ℚ) * ((file.width : ℚ) / (file.height : ℚ)))).toNat,
            512) := by
        rw [resizeDims, if_pos h512]
      have hres : resizeImageForProcessing true true encode file 512 =
          { name := file.name, ftype := file.ftype, size := sz,
            width := (resizeDims file.width file.height 512).1,
            height := (resizeDims file.width file.height 512).2,
            lastModified := file.lastModified } := by
        simp [resizeImageForProcessing, hE]
      have hc512 : ((512 : ℕ) : ℚ) = (512 : ℚ) := by norm_num
      rw [hc512] at hdims
      have hround_nonneg : 0 ≤ jsRound ((512 : ℚ) *
          ((file.width : ℚ) / (file.height : ℚ))) := by
        apply Int.floor_nonneg.mpr
        positivity
      refine ⟨by rw [hres, hdims], ?_, by rw [hres]⟩
      rw [hres, hdims]
      exact Int.toNat_of_nonneg hround_nonneg
    · intro h512
      have hdims : resizeDims file.width file.height 512 = (file.width, file.height) := by
        rw [resizeDims, if_neg (by omega)]
      have hres : resizeImageForProcessing true true encode file 512 =
          { name := file.name, ftype := file.ftype, size := sz,
            width := (resizeDims file.width file.height 512).1,
            height := (resizeDims file.width file.height 512).2,
            lastModified := file.lastModified } := by
        simp [resizeImageForProcessing, hE]
      rw [hres, hdims]
      exact ⟨rfl, rfl⟩
  · intro hfail
    rcases hfail with h | h | h
    · subst h
      rfl
    · subst h
      cases loadOk <;> rfl
    · cases loadOk <;> cases ctxOk <;> simp [resizeImageForProcessing, h]

/-- A tall concrete upload for the C10 witness. -/
def tallFile : JsFile :=
  { name := "tall.png", ftype := "image/png", size := 5000,
    width := 1000, height := 2000, lastModified := 0 }

/-- An always-succeeding canvas encoder for the C10 witness. -/
def encTest : String → ℚ → ℕ × ℕ → Option ℕ := fun t q d => some 777

/-- Witness for C10: a 1000x2000 input is stored at 256x512. -/
theorem resize_persist_downscaled_witness :
    tallFile.height > 512 ∧
    (resizeImageForProcessing true true encTest tallFile 512).height = 512 ∧
    ((resizeImageForProcessing true true encTest tallFile 512).width : ℤ) =
      jsRound ((512 : ℚ) * ((tallFile.width : ℚ) / (tallFile.height : ℚ))) := by
  have h := ((resize_persist_downscaled true true encTest
      (ImageDB.mk [] 1) 0 tallFile).2.1 rfl rfl 777 rfl).1 (by norm_num [tallFile])
  exact ⟨by norm_num [tallFile], h.1, h.2.1⟩
